import Mathlib

/-!
Verification development for `docker-housekeeping` (`src/main.go`).

The program chains HTTP calls against two remote APIs.  Each Go helper
(`loginRegistry`, `loginHub`, `pullManifest`, `pushManifest`,
`listPreviewTags`, `getAllImages`, `getTagLastUpdate`, `deleteTag`) is
embedded as a pure function of the outcome of its single HTTP request, and
the two CLI actions (`retag`, `prune-preview-tags`) as functions of an
environment that fixes the outcome of every possible request.  Each action
additionally returns the ordered trace of network calls it issued, so that
ordering and abort properties can be stated.

Modelling conventions:
- `HttpOutcome α` is the result of one request: a transport error from
  `client.Do`, or a response carrying the status code together with the
  result of reading and decoding the body into the schema the Go function
  unmarshals into.  The decoding slot folds the `ioutil.ReadAll` and
  `json.Unmarshal` failure cases, which the Go code treats identically
  (both are returned as errors, after the status-code check).
- Go timestamps (`time.Time`) and durations are integer nanosecond counts,
  modelled as `Int`; `time.Since(t)` is `now - t`.
- Go `resp.Status` (the status line text carried into error strings) is
  modelled by `statusText`; none of the verified properties depend on its
  exact rendering.
- byte slices (manifest payloads) are lists of naturals; the program never
  inspects their contents.
-/

namespace Housekeeping

/-- Outcome of a single HTTP request: transport failure, or a response with
a status code and the decoded body. -/
inductive HttpOutcome (α : Type) where
  | transportError (msg : String)
  | response (status : Nat) (parsed : Except String α)

/-- Go `resp.Status`, as threaded into error strings by `errors.New(resp.Status)`. -/
def statusText (status : Nat) : String := toString status

/-- Body schema both token endpoints are unmarshalled into (`main.go`
lines 202-205 and 252-255). -/
structure TokenBody where
  details : String
  token : String

/-- One entry of the hub repository listing (`main.go` lines 411-414). -/
structure ImageResult where
  user : String
  name : String

/-- Body schema of the hub repository listing (`main.go` lines 409-415). -/
structure ImagesBody where
  count : Int
  results : List ImageResult

/-- Body schema of the registry tag listing (`main.go` lines 359-362). -/
structure TagsBody where
  name : String
  tags : List String

/-- Go `strings.HasPrefix s p`: `p` is a prefix of `s`. -/
def startsWith (s p : String) : Bool := List.isPrefixOf p.data s.data

/-- `loginRegistry` (`main.go` 175-216): requires status 200, a decodable
body and a non-empty `token` field. -/
def loginRegistry : HttpOutcome TokenBody → Except String String
  | HttpOutcome.transportError m => Except.error m
  | HttpOutcome.response s parsed =>
    if s ≠ 200 then Except.error (statusText s)
    else
      match parsed with
      | Except.error m => Except.error m
      | Except.ok d =>
        if d.token = "" then Except.error "empty token" else Except.ok d.token

/-- Request body of the hub login (`main.go` 225-228): the credentials are
interpolated verbatim into a raw JSON template via `fmt.Sprintf` (the
template carries the literal newlines and tabs of the Go raw string). -/
def loginHubBody (username password : String) : String :=
  "\x7b\n\t\t\"username\": \"" ++ username ++ "\",\n\t\t\"password\": \"" ++
    password ++ "\"\n\t\x7d"

/-- `loginHub` (`main.go` 218-266): POSTs `loginHubBody username password`
and processes the response exactly like `loginRegistry`.  The response is
looked up in the environment by the request body actually sent. -/
def loginHub (hubLoginResp : String → HttpOutcome TokenBody)
    (username password : String) : Except String String :=
  match hubLoginResp (loginHubBody username password) with
  | HttpOutcome.transportError m => Except.error m
  | HttpOutcome.response s parsed =>
    if s ≠ 200 then Except.error (statusText s)
    else
      match parsed with
      | Except.error m => Except.error m
      | Except.ok d =>
        if d.token = "" then Except.error "empty token" else Except.ok d.token

/-- `pullManifest` (`main.go` 268-300): requires status 200 and returns the
raw body bytes unparsed. -/
def pullManifest : HttpOutcome (List Nat) → Except String (List Nat)
  | HttpOutcome.transportError m => Except.error m
  | HttpOutcome.response s body =>
    if s ≠ 200 then Except.error (statusText s) else body

/-- `pushManifest` (`main.go` 302-326): requires status 201; the response
body is never read. -/
def pushManifest : HttpOutcome Unit → Except String Unit
  | HttpOutcome.transportError m => Except.error m
  | HttpOutcome.response s _ =>
    if s ≠ 201 then Except.error (statusText s) else Except.ok ()

/-- The tag-filtering loop of `listPreviewTags` (`main.go` 368-373): keep,
in order, the tags carrying the `preview-` name prefix. -/
def previewFilter : List String → List String
  | [] => []
  | t :: rest =>
    if startsWith t "preview-" = true then t :: previewFilter rest
    else previewFilter rest

/-- `listPreviewTags` (`main.go` 328-378): requires status 200 and a
decodable body, then filters the returned tag list. -/
def listPreviewTags : HttpOutcome TagsBody → Except String (List String)
  | HttpOutcome.transportError m => Except.error m
  | HttpOutcome.response s parsed =>
    if s ≠ 200 then Except.error (statusText s)
    else
      match parsed with
      | Except.error m => Except.error m
      | Except.ok d => Except.ok (previewFilter d.tags)

/-- `getAllImages` (`main.go` 381-427): requires status 200 and a decodable
body, then projects the `name` field of every result, in response order. -/
def getAllImages : HttpOutcome ImagesBody → Except String (List String)
  | HttpOutcome.transportError m => Except.error m
  | HttpOutcome.response s parsed =>
    if s ≠ 200 then Except.error (statusText s)
    else
      match parsed with
      | Except.error m => Except.error m
      | Except.ok d => Except.ok (d.results.map (fun r => r.name))

/-- `getTagLastUpdate` (`main.go` 429-500): requires status 200; the decoded
slot is the `last_updated` timestamp (in nanoseconds), folding the JSON
unmarshal and the RFC3339 `time.Parse` failure cases, which the Go code
returns identically. -/
def getTagLastUpdate : HttpOutcome Int → Except String Int
  | HttpOutcome.transportError m => Except.error m
  | HttpOutcome.response s parsed =>
    if s ≠ 200 then Except.error (statusText s) else parsed

/-- `deleteTag` (`main.go` 502-533): requires status 204; the decoded slot
stands for the trailing `ioutil.ReadAll` of the response body. -/
def deleteTag : HttpOutcome Unit → Except String Unit
  | HttpOutcome.transportError m => Except.error m
  | HttpOutcome.response s parsed =>
    if s ≠ 204 then Except.error (statusText s)
    else
      match parsed with
      | Except.error m => Except.error m
      | Except.ok _ => Except.ok ()

/-- Go `time.Since(t).Hours()` for `now - t = d` nanoseconds, in exact
rational arithmetic.  Go computes this in `float64` as
`float64(d / Hour) + float64(d % Hour) / 3.6e12`; for every `int64` input
the float comparison `Hours() > 24` agrees with the exact rational
comparison (the integer and fractional parts are below 2^53 and hence
exact, and near the boundary the accumulated rounding error, at most half
an ulp of 24, is far smaller than the 1ns quantum of 2.78e-13 hours), so
the exact-rational embedding is faithful to the deletion decision. -/
def hoursSince (now t : Int) : ℚ := ((now - t : Int) : ℚ) / 3600000000000

/-- The prune deletion guard (`main.go` 152): `time.Since(t).Hours() > 24`. -/
def shouldDelete (now t : Int) : Bool := decide (hoursSince now t > 24)

/-! ### The retag action -/

/-- One network call of the retag action, in issue order. -/
inductive RetagEvent where
  | auth (repository : String)
  | pull (token repository tag : String)
  | push (token repository tag : String) (manifest : List Nat)
deriving DecidableEq

/-- Environment fixing the response to every request the retag action can
issue (keyed by the data the Go code puts in the request). -/
structure RetagEnv where
  registryResp : String → String → String → HttpOutcome TokenBody
  pullResp : String → String → String → HttpOutcome (List Nat)
  pushResp : String → String → String → List Nat → HttpOutcome Unit

/-- The `retag` CLI action (`main.go` 53-95), after credential lookup:
authenticate against the registry, pull the manifest of `oldTag`, push the
same bytes as `newTag`.  Returns the result and the trace of calls. -/
def retagAction (env : RetagEnv) (username password repository oldTag newTag : String) :
    Except String Unit × List RetagEvent :=
  match loginRegistry (env.registryResp repository username password) with
  | Except.error e =>
    (Except.error ("failed to authenticate: " ++ e), [RetagEvent.auth repository])
  | Except.ok token =>
    match pullManifest (env.pullResp token repository oldTag) with
    | Except.error e =>
      (Except.error ("failed to pull manifest: " ++ e),
       [RetagEvent.auth repository, RetagEvent.pull token repository oldTag])
    | Except.ok manifest =>
      match pushManifest (env.pushResp token repository newTag manifest) with
      | Except.error e =>
        (Except.error ("failed to push manifest: " ++ e),
         [RetagEvent.auth repository, RetagEvent.pull token repository oldTag,
          RetagEvent.push token repository newTag manifest])
      | Except.ok _ =>
        (Except.ok (),
         [RetagEvent.auth repository, RetagEvent.pull token repository oldTag,
          RetagEvent.push token repository newTag manifest])

/-! ### The prune action -/

/-- One network call of the prune action, in issue order. -/
inductive Event where
  | images
  | login
  | auth (repository : String)
  | list (token repository : String)
  | meta (repository tag : String)
  | delete (token repository tag : String)
deriving DecidableEq

/-- Environment fixing the response to every request the prune action can
issue, plus the current time (`time.Now`, in nanoseconds). -/
structure Env where
  imagesResp : HttpOutcome ImagesBody
  hubLoginResp : String → HttpOutcome TokenBody
  registryResp : String → String → String → HttpOutcome TokenBody
  tagsResp : String → String → HttpOutcome TagsBody
  tagMetaResp : String → String → HttpOutcome Int
  deleteResp : String → String → String → HttpOutcome Unit
  now : Int

/-- The repository string built in the prune loop (`main.go` 127):
`fmt.Sprintf("antidotelabs/%s", images[i])`. -/
def orgRepo (img : String) : String := "antidotelabs/" ++ img

/-- The inner tag loop of the prune action (`main.go` 144-160): fetch each
tag's last update (failure aborts the run), delete it when older than the
threshold (failure aborts the run, naming the tag). -/
def pruneTags (env : Env) (hubToken repository : String) :
    List String → Except String Unit × List Event
  | [] => (Except.ok (), [])
  | tag :: rest =>
    match getTagLastUpdate (env.tagMetaResp repository tag) with
    | Except.error e =>
      (Except.error ("failed to get last tag update: " ++ e),
       [Event.meta repository tag])
    | Except.ok t =>
      if shouldDelete env.now t = true then
        match deleteTag (env.deleteResp hubToken repository tag) with
        | Except.error e =>
          (Except.error ("failed to delete tag " ++ tag ++ " - " ++ e),
           [Event.meta repository tag, Event.delete hubToken repository tag])
        | Except.ok _ =>
          ((pruneTags env hubToken repository rest).1,
           Event.meta repository tag :: Event.delete hubToken repository tag ::
             (pruneTags env hubToken repository rest).2)
      else
        ((pruneTags env hubToken repository rest).1,
         Event.meta repository tag :: (pruneTags env hubToken repository rest).2)

/-- The per-repository loop of the prune action (`main.go` 126-161):
registry auth failure aborts the run; a tag-listing failure skips the
repository and continues; an inner-loop error aborts the run. -/
def pruneRepos (env : Env) (username password hubToken : String) :
    List String → Except String Unit × List Event
  | [] => (Except.ok (), [])
  | img :: rest =>
    match loginRegistry (env.registryResp (orgRepo img) username password) with
    | Except.error e =>
      (Except.error ("failed to authenticate: " ++ e), [Event.auth (orgRepo img)])
    | Except.ok registryToken =>
      match listPreviewTags (env.tagsResp registryToken (orgRepo img)) with
      | Except.error _ =>
        ((pruneRepos env username password hubToken rest).1,
         Event.auth (orgRepo img) :: Event.list registryToken (orgRepo img) ::
           (pruneRepos env username password hubToken rest).2)
      | Except.ok tags =>
        match pruneTags env hubToken (orgRepo img) tags with
        | (Except.error e, tr) =>
          (Except.error e,
           Event.auth (orgRepo img) :: Event.list registryToken (orgRepo img) :: tr)
        | (Except.ok _, tr) =>
          ((pruneRepos env username password hubToken rest).1,
           Event.auth (orgRepo img) :: Event.list registryToken (orgRepo img) ::
             (tr ++ (pruneRepos env username password hubToken rest).2))

/-- The image list the prune loop ranges over: on a listing error the Go
code only logs (`main.go` 115-118) and keeps the returned slice, which is
empty in every error case. -/
def imagesOrEmpty : Except String (List String) → List String
  | Except.ok l => l
  | Except.error _ => []

/-- The `prune-preview-tags` CLI action (`main.go` 101-164), after
credential lookup: list the organization's images (the error, if any, is
only logged), log in to the hub (failure aborts), then run the
per-repository loop.  Returns the result and the trace of calls. -/
def pruneAction (env : Env) (username password : String) :
    Except String Unit × List Event :=
  match loginHub env.hubLoginResp username password with
  | Except.error e =>
    (Except.error ("failed to authenticate: " ++ e), [Event.images, Event.login])
  | Except.ok hubToken =>
    ((pruneRepos env username password hubToken
        (imagesOrEmpty (getAllImages env.imagesResp))).1,
     Event.images :: Event.login ::
       (pruneRepos env username password hubToken
         (imagesOrEmpty (getAllImages env.imagesResp))).2)

/-- The image names a prune run over `env` ranges over. -/
def imagesOf (env : Env) : List String := imagesOrEmpty (getAllImages env.imagesResp)

/-- Repository named by an event, when it carries one. -/
def eventRepo : Event → Option String
  | Event.images => none
  | Event.login => none
  | Event.auth r => some r
  | Event.list _ r => some r
  | Event.meta r _ => some r
  | Event.delete _ r _ => some r

/-- The repositories of the registry-authentication events of a trace, in
order (one per repository the loop entered). -/
def authRepos (tr : List Event) : List String :=
  tr.filterMap (fun e =>
    match e with
    | Event.auth r => some r
    | _ => none)

/-! ### Spec-side JSON decoder for the hub-login body

The spec requires the hub-login request body to be a well-formed JSON
document correctly encoding the username and password fields.  The
following decoder follows that requirement: it accepts exactly the
documents consisting of an object with the two members `username` and
`password` (in that order, with arbitrary JSON whitespace), whose values
are JSON strings using the standard single-character escapes, and returns
the two decoded field values.  (`\u` escapes are not needed by any input
considered here and are rejected, which only makes the acceptance check
stricter.) -/

/-- Spec-side: the character denoted by a JSON single-character escape. -/
def escapeOf (c : Char) : Option Char :=
  if c = '"' then some '"'
  else if c = '\\' then some '\\'
  else if c = '/' then some '/'
  else if c = 'n' then some '\n'
  else if c = 't' then some '\t'
  else if c = 'r' then some '\r'
  else if c = 'b' then some (Char.ofNat 8)
  else if c = 'f' then some (Char.ofNat 12)
  else none

/-- Spec-side: decode a JSON string body (the part after the opening
quote), returning the decoded value and the input after the closing
quote. -/
def decodeJsonString : List Char → Option (String × List Char)
  | [] => none
  | '"' :: rest => some ("", rest)
  | '\\' :: [] => none
  | '\\' :: e :: rest =>
    match escapeOf e with
    | none => none
    | some d =>
      match decodeJsonString rest with
      | none => none
      | some (s, r) => some (String.mk (d :: s.data), r)
  | c :: rest =>
    if c = '\\' ∨ c = '"' then none
    else
      match decodeJsonString rest with
      | none => none
      | some (s, r) => some (String.mk (c :: s.data), r)

/-- Spec-side: skip JSON whitespace. -/
def skipWs : List Char → List Char
  | [] => []
  | c :: rest =>
    if c = ' ' ∨ c = '\n' ∨ c = '\t' ∨ c = '\r' then skipWs rest
    else c :: rest

/-- Spec-side: consume an expected literal character sequence. -/
def expectChars : List Char → List Char → Option (List Char)
  | [], input => some input
  | _ :: _, [] => none
  | p :: ps, c :: cs => if c = p then expectChars ps cs else none

/-- Spec-side: parse one `"key": "value"` member, returning the decoded
value and the remaining input. -/
def parseMember (key : String) (input : List Char) : Option (String × List Char) :=
  match expectChars ('"' :: key.data ++ ['"']) (skipWs input) with
  | none => none
  | some i =>
    match expectChars [':'] (skipWs i) with
    | none => none
    | some i2 =>
      match expectChars ['"'] (skipWs i2) with
      | none => none
      | some i3 => decodeJsonString i3

/-- Spec-side: parse a complete hub-login body as well-formed JSON, i.e.
an object with exactly the string members `username` and `password`,
returning the decoded credential pair. -/
def parseHubLoginBody (body : String) : Option (String × String) :=
  match expectChars [Char.ofNat 123] (skipWs body.data) with
  | none => none
  | some i1 =>
    match parseMember "username" i1 with
    | none => none
    | some (u, i2) =>
      match expectChars [','] (skipWs i2) with
      | none => none
      | some i3 =>
        match parseMember "password" i3 with
        | none => none
        | some (p, i4) =>
          match expectChars [Char.ofNat 125] (skipWs i4) with
          | none => none
          | some i5 => if skipWs i5 = [] then some (u, p) else none

/-! ### Helper lemmas -/

/-- The deletion guard, characterized at nanosecond granularity: strictly
more than 24 hours means strictly more than 86 400 000 000 000 ns. -/
theorem shouldDelete_eq (n t : Int) :
    shouldDelete n t = decide (86400000000000 < n - t) := by
  unfold shouldDelete hoursSince
  rcases h : decide (86400000000000 < n - t) with _ | _
  · simp only [decide_eq_false_iff_not, not_lt] at h
    simp only [decide_eq_false_iff_not, not_lt, gt_iff_lt]
    rw [div_le_iff₀ (by norm_num : (0:ℚ) < 3600000000000)]
    calc ((n - t : Int) : ℚ) ≤ 86400000000000 := by exact_mod_cast h
      _ = 24 * 3600000000000 := by norm_num
  · simp only [decide_eq_true_eq] at h
    simp only [decide_eq_true_eq, gt_iff_lt]
    rw [lt_div_iff₀ (by norm_num : (0:ℚ) < 3600000000000)]
    calc (24 : ℚ) * 3600000000000 = 86400000000000 := by norm_num
      _ < ((n - t : Int) : ℚ) := by exact_mod_cast h

theorem shouldDelete_iff (n t : Int) :
    shouldDelete n t = true ↔ 86400000000000 < n - t := by
  rw [shouldDelete_eq, decide_eq_true_eq]

/-- The filtering loop agrees with `List.filter` on the name test. -/
theorem previewFilter_eq_filter (ts : List String) :
    previewFilter ts = ts.filter (fun t => startsWith t "preview-") := by
  induction ts with
  | nil => rfl
  | cons t rest ih =>
    by_cases h : startsWith t "preview-" = true
    · simp [previewFilter, List.filter, h, ih]
    · simp only [Bool.not_eq_true] at h
      simp [previewFilter, List.filter, h, ih]

theorem mem_previewFilter {tg : String} {l : List String}
    (h : tg ∈ previewFilter l) : startsWith tg "preview-" = true := by
  rw [previewFilter_eq_filter] at h
  exact (List.mem_filter.mp h).2

/-- Inversion: a successful tag listing always went through the filter. -/
theorem listPreviewTags_ok {resp : HttpOutcome TagsBody} {tags : List String}
    (h : listPreviewTags resp = Except.ok tags) :
    ∃ body : TagsBody, tags = previewFilter body.tags := by
  cases resp with
  | transportError m => simp [listPreviewTags] at h
  | response s parsed =>
    simp only [listPreviewTags] at h
    split at h
    · simp at h
    · cases parsed with
      | error m => simp at h
      | ok d =>
        refine ⟨d, ?_⟩
        simpa using h.symm

/-- Inversion for the inner tag loop: every event it issues concerns the
given repository; a metadata fetch concerns a listed tag; a deletion
concerns a listed tag whose metadata fetch succeeded and whose age passed
the threshold check, and carries the hub token. -/
theorem pruneTags_mem_inv (env : Env) (tok repo : String) (tags : List String)
    (e : Event) (he : e ∈ (pruneTags env tok repo tags).2) :
    (∃ tg, tg ∈ tags ∧ e = Event.meta repo tg) ∨
    (∃ tg t, tg ∈ tags ∧ e = Event.delete tok repo tg ∧
      getTagLastUpdate (env.tagMetaResp repo tg) = Except.ok t ∧
      shouldDelete env.now t = true) := by
  induction tags with
  | nil => simp [pruneTags] at he
  | cons tag rest ih =>
    simp only [pruneTags] at he
    split at he
    next err hm =>
      simp at he
      exact Or.inl ⟨tag, by simp, he⟩
    next t hm =>
      split at he
      next hsd =>
        split at he
        next err hd =>
          simp at he
          rcases he with he | he
          · exact Or.inl ⟨tag, by simp, he⟩
          · exact Or.inr ⟨tag, t, by simp, he, hm, hsd⟩
        next u hd =>
          simp only [List.mem_cons] at he
          rcases he with he | he | he
          · exact Or.inl ⟨tag, by simp, he⟩
          · exact Or.inr ⟨tag, t, by simp, he, hm, hsd⟩
          · rcases ih he with ⟨tg, htg, hee⟩ | ⟨tg, t2, htg, hee, h1, h2⟩
            · exact Or.inl ⟨tg, by simp [htg], hee⟩
            · exact Or.inr ⟨tg, t2, by simp [htg], hee, h1, h2⟩
      next hsd =>
        simp only [List.mem_cons] at he
        rcases he with he | he
        · exact Or.inl ⟨tag, by simp, he⟩
        · rcases ih he with ⟨tg, htg, hee⟩ | ⟨tg, t2, htg, hee, h1, h2⟩
          · exact Or.inl ⟨tg, by simp [htg], hee⟩
          · exact Or.inr ⟨tg, t2, by simp [htg], hee, h1, h2⟩

/-- Completeness at the head of the tag list: a fetched timestamp past the
threshold makes the loop issue the deletion call. -/
theorem pruneTags_delete_mem (env : Env) (tok repo tag : String)
    (rest : List String) (t : Int)
    (hm : getTagLastUpdate (env.tagMetaResp repo tag) = Except.ok t)
    (hsd : shouldDelete env.now t = true) :
    Event.delete tok repo tag ∈ (pruneTags env tok repo (tag :: rest)).2 := by
  simp only [pruneTags, hm, hsd, if_true]
  cases hd : deleteTag (env.deleteResp tok repo tag) <;> simp

/-- A failing deletion call aborts the inner loop: the loop's result is the
error naming the tag, and its trace ends at the deletion event. -/
theorem pruneTags_delete_abort (env : Env) (tok repo tg : String)
    (tags : List String) (err : String)
    (hd : deleteTag (env.deleteResp tok repo tg) = Except.error err)
    (he : Event.delete tok repo tg ∈ (pruneTags env tok repo tags).2) :
    (pruneTags env tok repo tags).1 =
      Except.error ("failed to delete tag " ++ tg ++ " - " ++ err) ∧
    ∃ pre, (pruneTags env tok repo tags).2 = pre ++ [Event.delete tok repo tg] := by
  induction tags with
  | nil => simp [pruneTags] at he
  | cons tag rest ih =>
    cases hm : getTagLastUpdate (env.tagMetaResp repo tag) with
    | error e2 =>
      simp [pruneTags, hm] at he
    | ok t =>
      cases hsd : shouldDelete env.now t with
      | true =>
        cases hd2 : deleteTag (env.deleteResp tok repo tag) with
        | error e2 =>
          simp only [pruneTags, hm, hsd, if_true, hd2, List.mem_cons,
            List.not_mem_nil, or_false] at he
          rcases he with he | he
          · exact absurd he (by simp)
          · obtain ⟨h1, h2, h3⟩ := Event.delete.inj he.symm
            subst h3
            rw [hd] at hd2
            obtain rfl := (Except.error.inj hd2).symm
            refine ⟨by simp [pruneTags, hm, hsd, hd], [Event.meta repo tag], ?_⟩
            simp [pruneTags, hm, hsd, hd]
        | ok u =>
          simp only [pruneTags, hm, hsd, if_true, hd2, List.mem_cons] at he
          rcases he with he | he | he
          · exact absurd he (by simp)
          · obtain ⟨h1, h2, h3⟩ := Event.delete.inj he.symm
            subst h3
            rw [hd] at hd2
            exact absurd hd2 (by simp)
          · obtain ⟨hres, pre, htr⟩ := ih he
            refine ⟨by simp [pruneTags, hm, hsd, hd2, hres],
              Event.meta repo tag :: Event.delete tok repo tag :: pre, ?_⟩
            simp [pruneTags, hm, hsd, hd2, htr]
      | false =>
        simp only [pruneTags, hm, hsd, List.mem_cons] at he
        simp only [Bool.false_eq_true, if_false, List.mem_cons] at he
        rcases he with he | he
        · exact absurd he (by simp)
        · obtain ⟨hres, pre, htr⟩ := ih he
          refine ⟨by simp [pruneTags, hm, hsd, hres], Event.meta repo tag :: pre, ?_⟩
          simp [pruneTags, hm, hsd, htr]

/-- Inversion for the per-repository loop: every event it issues concerns
the `antidotelabs/<image>` repository of a listed image; tag-level events
sit inside an inner loop run on a successfully listed tag list. -/
theorem pruneRepos_mem_inv (env : Env) (u p tok : String) (imgs : List String)
    (e : Event) (he : e ∈ (pruneRepos env u p tok imgs).2) :
    ∃ img, img ∈ imgs ∧
      (e = Event.auth (orgRepo img) ∨
       (∃ rt, e = Event.list rt (orgRepo img)) ∨
       (∃ rt tags, listPreviewTags (env.tagsResp rt (orgRepo img)) = Except.ok tags ∧
         e ∈ (pruneTags env tok (orgRepo img) tags).2)) := by
  induction imgs with
  | nil => simp [pruneRepos] at he
  | cons img rest ih =>
    cases ha : loginRegistry (env.registryResp (orgRepo img) u p) with
    | error e2 =>
      simp only [pruneRepos, ha, List.mem_cons, List.not_mem_nil, or_false] at he
      exact ⟨img, by simp, Or.inl he⟩
    | ok rt =>
      cases hl : listPreviewTags (env.tagsResp rt (orgRepo img)) with
      | error e2 =>
        simp only [pruneRepos, ha, hl, List.mem_cons] at he
        rcases he with he | he | he
        · exact ⟨img, by simp, Or.inl he⟩
        · exact ⟨img, by simp, Or.inr (Or.inl ⟨rt, he⟩)⟩
        · obtain ⟨i2, hi2, hcase⟩ := ih he
          exact ⟨i2, by simp [hi2], hcase⟩
      | ok tags =>
        cases hpt : pruneTags env tok (orgRepo img) tags with
        | mk res tr =>
          cases res with
          | error e2 =>
            simp only [pruneRepos, ha, hl, hpt, List.mem_cons] at he
            rcases he with he | he | he
            · exact ⟨img, by simp, Or.inl he⟩
            · exact ⟨img, by simp, Or.inr (Or.inl ⟨rt, he⟩)⟩
            · exact ⟨img, by simp,
                Or.inr (Or.inr ⟨rt, tags, hl, by rw [hpt]; exact he⟩)⟩
          | ok v =>
            simp only [pruneRepos, ha, hl, hpt, List.mem_cons, List.mem_append] at he
            rcases he with he | he | he | he
            · exact ⟨img, by simp, Or.inl he⟩
            · exact ⟨img, by simp, Or.inr (Or.inl ⟨rt, he⟩)⟩
            · exact ⟨img, by simp,
                Or.inr (Or.inr ⟨rt, tags, hl, by rw [hpt]; exact he⟩)⟩
            · obtain ⟨i2, hi2, hcase⟩ := ih he
              exact ⟨i2, by simp [hi2], hcase⟩

/-- A failing deletion call aborts the per-repository loop: the loop's
result is the error naming the tag, and its trace ends at the deletion
event. -/
theorem pruneRepos_delete_abort (env : Env) (u p tok : String)
    (imgs : List String) (r tg err : String)
    (hd : deleteTag (env.deleteResp tok r tg) = Except.error err)
    (he : Event.delete tok r tg ∈ (pruneRepos env u p tok imgs).2) :
    (pruneRepos env u p tok imgs).1 =
      Except.error ("failed to delete tag " ++ tg ++ " - " ++ err) ∧
    ∃ pre, (pruneRepos env u p tok imgs).2 = pre ++ [Event.delete tok r tg] := by
  induction imgs with
  | nil => simp [pruneRepos] at he
  | cons img rest ih =>
    cases ha : loginRegistry (env.registryResp (orgRepo img) u p) with
    | error e2 =>
      simp [pruneRepos, ha] at he
    | ok rt =>
      cases hl : listPreviewTags (env.tagsResp rt (orgRepo img)) with
      | error e2 =>
        simp only [pruneRepos, ha, hl, List.mem_cons] at he
        rcases he with he | he | he
        · exact absurd he (by simp)
        · exact absurd he (by simp)
        · obtain ⟨hres, pre, htr⟩ := ih he
          refine ⟨by simp [pruneRepos, ha, hl, hres],
            Event.auth (orgRepo img) :: Event.list rt (orgRepo img) :: pre, ?_⟩
          simp [pruneRepos, ha, hl, htr]
      | ok tags =>
        cases hpt : pruneTags env tok (orgRepo img) tags with
        | mk res tr =>
          cases res with
          | error e2 =>
            simp only [pruneRepos, ha, hl, hpt, List.mem_cons] at he
            rcases he with he | he | he
            · exact absurd he (by simp)
            · exact absurd he (by simp)
            · have he2 : Event.delete tok r tg ∈ (pruneTags env tok (orgRepo img) tags).2 := by
                rw [hpt]; exact he
              have hr : r = orgRepo img := by
                rcases pruneTags_mem_inv env tok (orgRepo img) tags _ he2 with
                  ⟨tg2, _, hc⟩ | ⟨tg2, t2, _, hc, _, _⟩
                · exact absurd hc (by simp)
                · exact (Event.delete.inj hc).2.1
              subst hr
              obtain ⟨hres, pre, htr⟩ :=
                pruneTags_delete_abort env tok (orgRepo img) tg tags err hd he2
              have g1 : (pruneRepos env u p tok (img :: rest)).1 =
                  (pruneTags env tok (orgRepo img) tags).1 := by
                simp [pruneRepos, ha, hl, hpt]
              have g2 : (pruneRepos env u p tok (img :: rest)).2 =
                  Event.auth (orgRepo img) :: Event.list rt (orgRepo img) ::
                    (pruneTags env tok (orgRepo img) tags).2 := by
                simp [pruneRepos, ha, hl, hpt]
              refine ⟨by rw [g1]; exact hres,
                Event.auth (orgRepo img) :: Event.list rt (orgRepo img) :: pre, ?_⟩
              rw [g2, htr]
              simp
          | ok v =>
            simp only [pruneRepos, ha, hl, hpt, List.mem_cons, List.mem_append] at he
            rcases he with he | he | he | he
            · exact absurd he (by simp)
            · exact absurd he (by simp)
            · have he2 : Event.delete tok r tg ∈ (pruneTags env tok (orgRepo img) tags).2 := by
                rw [hpt]; exact he
              have hr : r = orgRepo img := by
                rcases pruneTags_mem_inv env tok (orgRepo img) tags _ he2 with
                  ⟨tg2, _, hc⟩ | ⟨tg2, t2, _, hc, _, _⟩
                · exact absurd hc (by simp)
                · exact (Event.delete.inj hc).2.1
              subst hr
              obtain ⟨hres, _⟩ :=
                pruneTags_delete_abort env tok (orgRepo img) tg tags err hd he2
              rw [hpt] at hres
              simp at hres
            · obtain ⟨hres, pre, htr⟩ := ih he
              refine ⟨by simp [pruneRepos, ha, hl, hpt, hres],
                Event.auth (orgRepo img) :: Event.list rt (orgRepo img) :: (tr ++ pre), ?_⟩
              simp [pruneRepos, ha, hl, hpt, htr]

/-- The inner loop issues no registry-authentication events. -/
theorem pruneTags_authRepos (env : Env) (tok repo : String) (tags : List String) :
    authRepos (pruneTags env tok repo tags).2 = [] := by
  rw [authRepos, List.filterMap_eq_nil_iff]
  intro e he
  rcases pruneTags_mem_inv env tok repo tags e he with ⟨tg, _, rfl⟩ | ⟨tg, t, _, rfl, _, _⟩ <;> rfl

/-- The registry-authentication events of a per-repository run cover a
prefix of the image list, in order, each under the fixed organization. -/
theorem pruneRepos_authRepos (env : Env) (u p tok : String) (imgs : List String) :
    ∃ k, authRepos (pruneRepos env u p tok imgs).2 = (imgs.take k).map orgRepo := by
  induction imgs with
  | nil => exact ⟨0, by simp [pruneRepos, authRepos]⟩
  | cons img rest ih =>
    cases ha : loginRegistry (env.registryResp (orgRepo img) u p) with
    | error e2 =>
      refine ⟨1, ?_⟩
      simp [pruneRepos, ha, authRepos]
    | ok rt =>
      cases hl : listPreviewTags (env.tagsResp rt (orgRepo img)) with
      | error e2 =>
        obtain ⟨k, hk⟩ := ih
        refine ⟨k + 1, ?_⟩
        simp only [pruneRepos, ha, hl, List.take_succ_cons, List.map_cons]
        simp only [authRepos, List.filterMap_cons] at hk ⊢
        simp [hk]
      | ok tags =>
        cases hpt : pruneTags env tok (orgRepo img) tags with
        | mk res tr =>
          have htr : authRepos tr = [] := by
            have := pruneTags_authRepos env tok (orgRepo img) tags
            rw [hpt] at this
            exact this
          cases res with
          | error e2 =>
            refine ⟨1, ?_⟩
            simp only [pruneRepos, ha, hl, hpt]
            simp only [authRepos, List.filterMap_cons] at htr ⊢
            simp [htr]
          | ok v =>
            obtain ⟨k, hk⟩ := ih
            refine ⟨k + 1, ?_⟩
            simp only [pruneRepos, ha, hl, hpt, List.take_succ_cons, List.map_cons]
            simp only [authRepos, List.filterMap_cons, List.filterMap_append] at htr hk ⊢
            simp [htr, hk]

/-- The per-repository loop never issues the hub-level calls. -/
theorem pruneRepos_not_top (env : Env) (u p tok : String) (imgs : List String) :
    Event.images ∉ (pruneRepos env u p tok imgs).2 ∧
    Event.login ∉ (pruneRepos env u p tok imgs).2 := by
  constructor <;> intro h <;>
    rcases pruneRepos_mem_inv env u p tok imgs _ h with
      ⟨img, _, hc | ⟨rt, hc⟩ | ⟨rt, tags, hl, hmem⟩⟩ <;>
    first
      | exact absurd hc (by simp)
      | rcases pruneTags_mem_inv env tok (orgRepo img) tags _ hmem with
          ⟨tg, _, hc2⟩ | ⟨tg, t, _, hc2, _, _⟩ <;> exact absurd hc2 (by simp)

/-! ### Concrete test environments -/

/-- Environment in which the organization image listing answers HTTP 500
while everything else succeeds. -/
def envListFail : Env :=
  { imagesResp := HttpOutcome.response 500 (Except.error "boom")
  , hubLoginResp := fun _ => HttpOutcome.response 200 (Except.ok { details := "", token := "hub" })
  , registryResp := fun _ _ _ => HttpOutcome.response 200 (Except.ok { details := "", token := "reg" })
  , tagsResp := fun _ repo => HttpOutcome.response 200 (Except.ok { name := repo, tags := [] })
  , tagMetaResp := fun _ _ => HttpOutcome.response 200 (Except.ok 0)
  , deleteResp := fun _ _ _ => HttpOutcome.response 204 (Except.ok ())
  , now := 0 }

/-- Environment with two images, where the tag listing of
`antidotelabs/imageA` fails and everything about `antidotelabs/imageB`
succeeds (one preview tag, 25 hours old). -/
def envSkip : Env :=
  { imagesResp := HttpOutcome.response 200 (Except.ok
      { count := 2
      , results := [ { user := "antidotelabs", name := "imageA" }
                   , { user := "antidotelabs", name := "imageB" } ] })
  , hubLoginResp := fun _ => HttpOutcome.response 200 (Except.ok { details := "", token := "hub" })
  , registryResp := fun _ _ _ => HttpOutcome.response 200 (Except.ok { details := "", token := "reg" })
  , tagsResp := fun _ repo =>
      if repo = "antidotelabs/imageA" then HttpOutcome.response 500 (Except.error "x")
      else HttpOutcome.response 200 (Except.ok { name := repo, tags := ["preview-old", "latest"] })
  , tagMetaResp := fun _ _ => HttpOutcome.response 200 (Except.ok 0)
  , deleteResp := fun _ _ _ => HttpOutcome.response 204 (Except.ok ())
  , now := 90000000000000 }

/-- Environment with one image and one preview tag last updated at time 0,
with the current time a parameter. -/
def envAge (n : Int) : Env :=
  { imagesResp := HttpOutcome.response 200 (Except.ok
      { count := 1, results := [ { user := "antidotelabs", name := "img" } ] })
  , hubLoginResp := fun _ => HttpOutcome.response 200 (Except.ok { details := "", token := "hub" })
  , registryResp := fun _ _ _ => HttpOutcome.response 200 (Except.ok { details := "", token := "reg" })
  , tagsResp := fun _ repo => HttpOutcome.response 200 (Except.ok { name := repo, tags := ["preview-a"] })
  , tagMetaResp := fun _ _ => HttpOutcome.response 200 (Except.ok 0)
  , deleteResp := fun _ _ _ => HttpOutcome.response 204 (Except.ok ())
  , now := n }

/-- Environment like `envAge` at 25 hours, but in which every deletion call
answers HTTP 500. -/
def envDelFail : Env :=
  { imagesResp := HttpOutcome.response 200 (Except.ok
      { count := 1, results := [ { user := "antidotelabs", name := "img" } ] })
  , hubLoginResp := fun _ => HttpOutcome.response 200 (Except.ok { details := "", token := "hub" })
  , registryResp := fun _ _ _ => HttpOutcome.response 200 (Except.ok { details := "", token := "reg" })
  , tagsResp := fun _ repo => HttpOutcome.response 200 (Except.ok { name := repo, tags := ["preview-a"] })
  , tagMetaResp := fun _ _ => HttpOutcome.response 200 (Except.ok 0)
  , deleteResp := fun _ _ _ => HttpOutcome.response 500 (Except.ok ())
  , now := 90000000000000 }

/-- Retag environment in which every call succeeds and the pulled manifest
is the byte list `[1, 2, 3]`. -/
def envRetag : RetagEnv :=
  { registryResp := fun _ _ _ => HttpOutcome.response 200 (Except.ok { details := "", token := "rtok" })
  , pullResp := fun _ _ _ => HttpOutcome.response 200 (Except.ok [1, 2, 3])
  , pushResp := fun _ _ _ _ => HttpOutcome.response 201 (Except.ok ()) }

/-! ### Claims -/

/-- Claim C1: the claim states that a failure of the organization image
listing makes the Prune run return an error.  The code does not: the error
is only logged (`main.go` 115-118), the loop then ranges over an empty
image list, and the run succeeds.  This theorem evaluates the model at the
failing input: the listing fails with HTTP 500, yet the prune action
returns success, having made only the listing and hub-login calls. -/
theorem c1_prune_succeeds_despite_listing_failure :
    getAllImages envListFail.imagesResp = Except.error (statusText 500) ∧
    (pruneAction envListFail "u" "p").1 = Except.ok () ∧
    (pruneAction envListFail "u" "p").2 = [Event.images, Event.login] := by
  refine ⟨rfl, ?_, ?_⟩ <;>
    simp [pruneAction, pruneRepos, imagesOrEmpty, getAllImages, loginHub,
      envListFail, loginHubBody, statusText]

/-- Claim C3: in a Prune run, for a tag whose metadata fetch yields
timestamp `t`, the deletion call for that tag is issued exactly when
`now - t` exceeds 24 hours strictly (86 400 000 000 000 ns). -/
theorem c3_delete_iff_over_24h (env : Env) (hubToken repository tag : String)
    (rest : List String) (t : Int)
    (hm : getTagLastUpdate (env.tagMetaResp repository tag) = Except.ok t) :
    Event.delete hubToken repository tag ∈
        (pruneTags env hubToken repository (tag :: rest)).2 ↔
      env.now - t > 86400000000000 := by
  constructor
  · intro hmem
    rcases pruneTags_mem_inv env hubToken repository (tag :: rest) _ hmem with
      ⟨tg, _, hc⟩ | ⟨tg, t2, _, hc, hm2, hsd⟩
    · exact absurd hc (by simp)
    · obtain ⟨_, _, h3⟩ := Event.delete.inj hc
      subst h3
      rw [hm] at hm2
      obtain rfl := Except.ok.inj hm2
      exact (shouldDelete_iff env.now t).mp hsd
  · intro hgt
    exact pruneTags_delete_mem env hubToken repository tag rest t hm
      ((shouldDelete_iff env.now t).mpr hgt)

/-- Witness for C3 at the boundary: with the tag last updated at time 0,
the deletion is issued at now = 24.0001 h (86 400 360 000 000 ns) and not
issued at now = exactly 24 h (86 400 000 000 000 ns). -/
theorem c3_delete_iff_over_24h_witness :
    Event.delete "hub" "antidotelabs/img" "preview-a" ∈
      (pruneTags (envAge 86400360000000) "hub" "antidotelabs/img" ["preview-a"]).2 ∧
    Event.delete "hub" "antidotelabs/img" "preview-a" ∉
      (pruneTags (envAge 86400000000000) "hub" "antidotelabs/img" ["preview-a"]).2 := by
  constructor
  · exact (c3_delete_iff_over_24h (envAge 86400360000000) "hub" "antidotelabs/img"
      "preview-a" [] 0 rfl).mpr (by decide)
  · intro h
    exact absurd ((c3_delete_iff_over_24h (envAge 86400000000000) "hub" "antidotelabs/img"
      "preview-a" [] 0 rfl).mp h) (by decide)

/-- Claim C7: the tag filter keeps exactly the tags prefixed `preview-`,
in their original relative order; a successful listing applies it to the
returned tag list; and on the spec's example it yields the spec's answer.
The last conjunct characterizes the name test as string-prefix. -/
theorem c7_preview_filtering :
    (∀ ts : List String, previewFilter ts = ts.filter (fun t => startsWith t "preview-")) ∧
    (∀ body : TagsBody,
      listPreviewTags (HttpOutcome.response 200 (Except.ok body)) =
        Except.ok (body.tags.filter (fun t => startsWith t "preview-"))) ∧
    previewFilter ["preview-abc", "latest", "preview-xyz", "v2"] =
      ["preview-abc", "preview-xyz"] ∧
    (∀ t : String, startsWith t "preview-" = true ↔ ∃ r, t = "preview-" ++ r) := by
  refine ⟨previewFilter_eq_filter, ?_, by decide, ?_⟩
  · intro body
    simp [listPreviewTags, previewFilter_eq_filter]
  · intro t
    rw [startsWith, List.isPrefixOf_iff_prefix]
    constructor
    · intro h
      obtain ⟨s, hs⟩ := h
      refine ⟨String.mk s, ?_⟩
      apply String.ext
      rw [String.data_append]
      exact hs.symm
    · rintro ⟨r, rfl⟩
      exact ⟨r.data, (String.data_append _ _).symm⟩

/-- Claim C9: the claim (and the spec) requires the hub-login body to be a
well-formed JSON document encoding the two credential fields even when they
contain JSON-special characters.  The code interpolates the raw strings
into the template instead (`main.go` 225-228): with the password
`pa"ss` the produced body is not well-formed JSON (the spec-side decoder
rejects it), while on quote-free credentials the same decoder accepts the
body and recovers the fields — so the decoder itself is not vacuous. -/
theorem c9_login_body_not_escaped :
    parseHubLoginBody (loginHubBody "user" "pa\"ss") = none ∧
    parseHubLoginBody (loginHubBody "user" "pa\\ss") = none ∧
    parseHubLoginBody (loginHubBody "user" "pass") = some ("user", "pass") ∧
    parseHubLoginBody "\x7b \"username\": \"user\", \"password\": \"pa\\\"ss\" \x7d" =
      some ("user", "pa\"ss") := by
  exact ⟨by decide, by decide, by decide, by decide⟩

/-- Claim C2: whenever the retag action issues a manifest push, the pushed
repository and tag are the requested ones and the pushed bytes are exactly
the bytes the manifest pull returned for the old tag under the
authenticated token — no parsing or mutation in between. -/
theorem c2_retag_bytes_unchanged (env : RetagEnv)
    (u p repository oldTag newTag tok r tg : String) (m : List Nat)
    (hmem : RetagEvent.push tok r tg m ∈
      (retagAction env u p repository oldTag newTag).2) :
    r = repository ∧ tg = newTag ∧
    loginRegistry (env.registryResp repository u p) = Except.ok tok ∧
    pullManifest (env.pullResp tok repository oldTag) = Except.ok m := by
  cases ha : loginRegistry (env.registryResp repository u p) with
  | error e =>
    simp [retagAction, ha] at hmem
  | ok token =>
    cases hpull : pullManifest (env.pullResp token repository oldTag) with
    | error e =>
      simp [retagAction, ha, hpull] at hmem
    | ok manifest =>
      cases hpush : pushManifest (env.pushResp token repository newTag manifest) with
      | error e =>
        simp only [retagAction, ha, hpull, hpush, List.mem_cons,
          List.not_mem_nil, or_false] at hmem
        rcases hmem with hc | hc | hc
        · exact absurd hc (by simp)
        · exact absurd hc (by simp)
        · obtain ⟨h1, h2, h3, h4⟩ := RetagEvent.push.inj hc
          subst h1; subst h4
          exact ⟨h2, h3, rfl, hpull⟩
      | ok v =>
        simp only [retagAction, ha, hpull, hpush, List.mem_cons,
          List.not_mem_nil, or_false] at hmem
        rcases hmem with hc | hc | hc
        · exact absurd hc (by simp)
        · exact absurd hc (by simp)
        · obtain ⟨h1, h2, h3, h4⟩ := RetagEvent.push.inj hc
          subst h1; subst h4
          exact ⟨h2, h3, rfl, hpull⟩

/-- Witness for C2: in the all-success retag environment, the push event
is in the trace, and the theorem yields that the pushed bytes `[1, 2, 3]`
are exactly what the pull returned. -/
theorem c2_retag_bytes_unchanged_witness :
    "repo" = "repo" ∧ "v2" = "v2" ∧
    loginRegistry (envRetag.registryResp "repo" "u" "p") = Except.ok "rtok" ∧
    pullManifest (envRetag.pullResp "rtok" "repo" "v1") = Except.ok [1, 2, 3] :=
  c2_retag_bytes_unchanged envRetag "u" "p" "repo" "v1" "v2" "rtok" "repo" "v2" [1, 2, 3]
    (by simp [retagAction, loginRegistry, pullManifest, pushManifest, envRetag])

/-- Claim C4: if a Prune run issues a deletion call that fails, the run
returns the error naming that tag, and the trace ends at that deletion —
no later tag or repository is touched. -/
theorem c4_delete_failure_aborts (env : Env) (u p tok repo tg err : String)
    (hmem : Event.delete tok repo tg ∈ (pruneAction env u p).2)
    (hd : deleteTag (env.deleteResp tok repo tg) = Except.error err) :
    (pruneAction env u p).1 =
      Except.error ("failed to delete tag " ++ tg ++ " - " ++ err) ∧
    ∃ pre, (pruneAction env u p).2 = pre ++ [Event.delete tok repo tg] := by
  cases hh : loginHub env.hubLoginResp u p with
  | error e =>
    simp [pruneAction, hh] at hmem
  | ok hubToken =>
    have h1 : (pruneAction env u p).1 =
        (pruneRepos env u p hubToken (imagesOrEmpty (getAllImages env.imagesResp))).1 := by
      simp [pruneAction, hh]
    have h2 : (pruneAction env u p).2 = Event.images :: Event.login ::
        (pruneRepos env u p hubToken (imagesOrEmpty (getAllImages env.imagesResp))).2 := by
      simp [pruneAction, hh]
    rw [h2] at hmem
    simp only [List.mem_cons] at hmem
    rcases hmem with hc | hc | hmem
    · exact absurd hc (by simp)
    · exact absurd hc (by simp)
    · have htok : tok = hubToken := by
        rcases pruneRepos_mem_inv env u p hubToken _ _ hmem with
          ⟨img, _, hc | ⟨rt, hc⟩ | ⟨rt, tags, hl, hm2⟩⟩
        · exact absurd hc (by simp)
        · exact absurd hc (by simp)
        · rcases pruneTags_mem_inv env hubToken (orgRepo img) tags _ hm2 with
            ⟨tg2, _, hc2⟩ | ⟨tg2, t2, _, hc2, _, _⟩
          · exact absurd hc2 (by simp)
          · exact (Event.delete.inj hc2).1
      subst htok
      obtain ⟨hres, pre, htr⟩ :=
        pruneRepos_delete_abort env u p tok _ repo tg err hd hmem
      refine ⟨by rw [h1]; exact hres, Event.images :: Event.login :: pre, ?_⟩
      rw [h2, htr]
      simp

/-- Witness for C4: with the single 25-hour-old preview tag and a failing
delete endpoint, the run returns the error naming `preview-a` and the trace
ends at that deletion call. -/
theorem c4_delete_failure_aborts_witness :
    (pruneAction envDelFail "u" "p").1 =
      Except.error ("failed to delete tag " ++ "preview-a" ++ " - " ++ statusText 500) ∧
    ∃ pre, (pruneAction envDelFail "u" "p").2 =
      pre ++ [Event.delete "hub" "antidotelabs/img" "preview-a"] :=
  c4_delete_failure_aborts envDelFail "u" "p" "hub" "antidotelabs/img" "preview-a"
    (statusText 500)
    (by simp [pruneAction, pruneRepos, pruneTags, imagesOrEmpty, getAllImages,
      loginHub, loginRegistry, listPreviewTags, getTagLastUpdate, deleteTag,
      previewFilter, startsWith, orgRepo, loginHubBody, statusText,
      shouldDelete_eq, envDelFail, List.isPrefixOf])
    rfl

/-- Claim C5: in the per-repository loop, a registry authentication failure
for the repository at hand aborts the loop immediately with the
authentication error (no further repository is processed), while a
tag-listing failure merely records the two calls and continues with the
remaining repositories, whose processing is exactly as if the failing
repository were absent. -/
theorem c5_auth_fatal_vs_listing_skip (env : Env) (u p hubToken img : String)
    (rest : List String) :
    (∀ e, loginRegistry (env.registryResp (orgRepo img) u p) = Except.error e →
      pruneRepos env u p hubToken (img :: rest) =
        (Except.error ("failed to authenticate: " ++ e), [Event.auth (orgRepo img)])) ∧
    (∀ rt e, loginRegistry (env.registryResp (orgRepo img) u p) = Except.ok rt →
      listPreviewTags (env.tagsResp rt (orgRepo img)) = Except.error e →
      pruneRepos env u p hubToken (img :: rest) =
        ((pruneRepos env u p hubToken rest).1,
         Event.auth (orgRepo img) :: Event.list rt (orgRepo img) ::
           (pruneRepos env u p hubToken rest).2)) := by
  constructor
  · intro e ha
    simp [pruneRepos, ha]
  · intro rt e ha hl
    simp [pruneRepos, ha, hl]

/-- Witness for C5: in `envSkip`, repository A's tag listing fails and is
skipped (the loop continues exactly with B), and the whole run still
succeeds, B having been fully processed. -/
theorem c5_auth_fatal_vs_listing_skip_witness :
    (pruneAction envSkip "u" "p").1 = Except.ok () ∧
    pruneRepos envSkip "u" "p" "hub" ["imageA", "imageB"] =
      ((pruneRepos envSkip "u" "p" "hub" ["imageB"]).1,
       Event.auth (orgRepo "imageA") :: Event.list "reg" (orgRepo "imageA") ::
         (pruneRepos envSkip "u" "p" "hub" ["imageB"]).2) := by
  constructor
  · simp [pruneAction, pruneRepos, pruneTags, imagesOrEmpty, getAllImages,
      loginHub, loginRegistry, listPreviewTags, getTagLastUpdate, deleteTag,
      previewFilter, startsWith, orgRepo, loginHubBody, statusText,
      shouldDelete_eq, envSkip, List.isPrefixOf]
  · exact (c5_auth_fatal_vs_listing_skip envSkip "u" "p" "hub" "imageA" ["imageB"]).2
      "reg" (statusText 500) rfl rfl

/-- Claim C6: every deletion a Prune run issues concerns a tag whose name
starts with `preview-`, and is preceded by a successful fetch of that tag's
last-updated timestamp that passed the strict 24-hour age check. -/
theorem c6_delete_only_verified_previews (env : Env) (u p tok repo tg : String)
    (hmem : Event.delete tok repo tg ∈ (pruneAction env u p).2) :
    startsWith tg "preview-" = true ∧
    ∃ t, getTagLastUpdate (env.tagMetaResp repo tg) = Except.ok t ∧
      shouldDelete env.now t = true ∧ env.now - t > 86400000000000 := by
  cases hh : loginHub env.hubLoginResp u p with
  | error e =>
    simp [pruneAction, hh] at hmem
  | ok hubToken =>
    have h2 : (pruneAction env u p).2 = Event.images :: Event.login ::
        (pruneRepos env u p hubToken (imagesOrEmpty (getAllImages env.imagesResp))).2 := by
      simp [pruneAction, hh]
    rw [h2] at hmem
    simp only [List.mem_cons] at hmem
    rcases hmem with hc | hc | hmem
    · exact absurd hc (by simp)
    · exact absurd hc (by simp)
    · rcases pruneRepos_mem_inv env u p hubToken _ _ hmem with
        ⟨img, _, hc | ⟨rt, hc⟩ | ⟨rt, tags, hl, hm2⟩⟩
      · exact absurd hc (by simp)
      · exact absurd hc (by simp)
      · rcases pruneTags_mem_inv env hubToken (orgRepo img) tags _ hm2 with
          ⟨tg2, _, hc2⟩ | ⟨tg2, t2, htg2, hc2, hmf, hsd⟩
        · exact absurd hc2 (by simp)
        · obtain ⟨h1, h2r, h3⟩ := Event.delete.inj hc2
          subst h3
          subst h2r
          obtain ⟨body, rfl⟩ := listPreviewTags_ok hl
          exact ⟨mem_previewFilter htg2, t2, hmf, hsd,
            (shouldDelete_iff env.now t2).mp hsd⟩

/-- Witness for C6: the one deletion `envSkip` produces concerns
`preview-old`, whose metadata fetch returned 0 and whose age (25 h) passes
the strict threshold. -/
theorem c6_delete_only_verified_previews_witness :
    startsWith "preview-old" "preview-" = true ∧
    ∃ t, getTagLastUpdate (envSkip.tagMetaResp "antidotelabs/imageB" "preview-old") =
        Except.ok t ∧
      shouldDelete envSkip.now t = true ∧ envSkip.now - t > 86400000000000 :=
  c6_delete_only_verified_previews envSkip "u" "p" "hub" "antidotelabs/imageB"
    "preview-old"
    (by simp [pruneAction, pruneRepos, pruneTags, imagesOrEmpty, getAllImages,
      loginHub, loginRegistry, listPreviewTags, getTagLastUpdate, deleteTag,
      previewFilter, startsWith, orgRepo, loginHubBody, statusText,
      shouldDelete_eq, envSkip, List.isPrefixOf])

/-- Claim C8 counterexample: the claim says no network call other than hub
authentication precedes the hub login; in the model (as in `main.go`
115-124) the first call of a prune run is the organization image listing,
not the hub login. -/
theorem c8_hub_login_not_first :
    (pruneAction envSkip "u" "p").2.head? = some Event.images ∧
    Event.images ≠ Event.login := by
  constructor
  · cases hh : loginHub envSkip.hubLoginResp "u" "p" with
    | error e => simp [pruneAction, hh]
    | ok tok => simp [pruneAction, hh]
  · simp

/-- Claim C8 as amended: a prune run first lists the organization's images,
then logs in to the hub, and only then runs the per-repository loop; each
of the two hub-level calls happens exactly once, and nothing else precedes
them. -/
theorem c8_listing_then_login_then_loop (env : Env) (u p : String) :
    (pruneAction env u p).2.take 2 = [Event.images, Event.login] ∧
    (pruneAction env u p).2.count Event.images = 1 ∧
    (pruneAction env u p).2.count Event.login = 1 := by
  cases hh : loginHub env.hubLoginResp u p with
  | error e =>
    refine ⟨by simp [pruneAction, hh], ?_, ?_⟩ <;>
      simp [pruneAction, hh, List.count_cons]
  | ok tok =>
    have hni := (pruneRepos_not_top env u p tok (imagesOrEmpty (getAllImages env.imagesResp))).1
    have hnl := (pruneRepos_not_top env u p tok (imagesOrEmpty (getAllImages env.imagesResp))).2
    refine ⟨by simp [pruneAction, hh], ?_, ?_⟩ <;>
      simp [pruneAction, hh, List.count_cons, List.count_eq_zero.mpr hni,
        List.count_eq_zero.mpr hnl]

/-- Claim C10: every repository a prune run mentions in any registry-auth,
tag-listing, metadata or deletion call is `antidotelabs/<image>` for an
image of the listing's result, and the sequence of repositories entered is
a prefix of the listing, in order, under the fixed organization. -/
theorem c10_org_fixed (env : Env) (u p : String) :
    (∀ e, e ∈ (pruneAction env u p).2 → ∀ r, eventRepo e = some r →
      ∃ img, img ∈ imagesOf env ∧ r = orgRepo img) ∧
    (∃ k, authRepos (pruneAction env u p).2 = ((imagesOf env).take k).map orgRepo) := by
  constructor
  · intro e he r hr
    cases hh : loginHub env.hubLoginResp u p with
    | error e2 =>
      simp only [pruneAction, hh, List.mem_cons, List.not_mem_nil, or_false] at he
      rcases he with rfl | rfl <;> simp [eventRepo] at hr
    | ok tok =>
      have h2 : (pruneAction env u p).2 = Event.images :: Event.login ::
          (pruneRepos env u p tok (imagesOf env)).2 := by
        simp [pruneAction, hh, imagesOf]
      rw [h2] at he
      simp only [List.mem_cons] at he
      rcases he with rfl | rfl | he
      · simp [eventRepo] at hr
      · simp [eventRepo] at hr
      · rcases pruneRepos_mem_inv env u p tok (imagesOf env) e he with
          ⟨img, himg, hc | ⟨rt, hc⟩ | ⟨rt, tags, hl, hm2⟩⟩
        · subst hc
          simp only [eventRepo, Option.some.injEq] at hr
          exact ⟨img, himg, hr.symm⟩
        · subst hc
          simp only [eventRepo, Option.some.injEq] at hr
          exact ⟨img, himg, hr.symm⟩
        · rcases pruneTags_mem_inv env tok (orgRepo img) tags _ hm2 with
            ⟨tg2, _, hc2⟩ | ⟨tg2, t2, _, hc2, _, _⟩ <;>
          · subst hc2
            simp only [eventRepo, Option.some.injEq] at hr
            exact ⟨img, himg, hr.symm⟩
  · cases hh : loginHub env.hubLoginResp u p with
    | error e2 =>
      exact ⟨0, by simp [pruneAction, hh, authRepos]⟩
    | ok tok =>
      obtain ⟨k, hk⟩ := pruneRepos_authRepos env u p tok (imagesOf env)
      refine ⟨k, ?_⟩
      have h2 : (pruneAction env u p).2 = Event.images :: Event.login ::
          (pruneRepos env u p tok (imagesOf env)).2 := by
        simp [pruneAction, hh, imagesOf]
      rw [h2]
      simp only [authRepos, List.filterMap_cons] at hk ⊢
      simpa using hk

/-- Witness for C10: in `envSkip` the repository of the first registry-auth
event really is `antidotelabs/` applied to a listed image. -/
theorem c10_org_fixed_witness :
    ∃ img, img ∈ imagesOf envSkip ∧ "antidotelabs/imageA" = orgRepo img :=
  (c10_org_fixed envSkip "u" "p").1 (Event.auth "antidotelabs/imageA")
    (by simp [pruneAction, pruneRepos, pruneTags, imagesOrEmpty, getAllImages,
      loginHub, loginRegistry, listPreviewTags, getTagLastUpdate, deleteTag,
      previewFilter, startsWith, orgRepo, loginHubBody, statusText,
      shouldDelete_eq, envSkip, List.isPrefixOf])
    "antidotelabs/imageA" rfl

end Housekeeping
